import Mathlib

/-!
Verification of the conversion-orchestration and chapter-segmentation
subsystem of tools/pdf2txt.py.

The Python functions create_file, create_chapters and main are shallowly
embedded as executable Lean definitions.  Python strings are Lean Strings;
Python string primitives (split, endswith, replace, truthiness) are embedded
as explicit Lean functions matching the CPython semantics the source relies
on.  File-system effects are represented by explicit data: the chapter
directory is an association list from file names to file contents, the
scan loop of create_chapters is represented by the exact trace of
open/write/close events it performs, and fallible operations return Except.
External collaborators (the pdfminer engine, the OS) are parameters: an
optional error stands for the collaborator raising at its call site.
-/

namespace Pdf2Txt

/-- Python truthiness of an optional string argument (`if x:`): `None` and
the empty string are falsy. -/
def pyTruthyS : Option String → Bool
  | none => false
  | some s => s ≠ ""

/-- Fields of a character list split at every single space character,
keeping empty fields (CPython str.split(' ') semantics). -/
def pySplitSpL : List Char → List (List Char)
  | [] => [[]]
  | c :: rest =>
    if c = ' ' then [] :: pySplitSpL rest
    else
      match pySplitSpL rest with
      | [] => [[c]]
      | f :: fs => (c :: f) :: fs

/-- Python `s.split(' ')` (tools/pdf2txt.py line 168 splits on a single
space character, keeping empty fields). -/
def pySplitSp (s : String) : List String := (pySplitSpL s.data).map String.mk

/-- Python `s.lower()` (ASCII case folding, as both the chapter keyword
and the scanned tokens are ASCII here). -/
def pyLower (s : String) : String := String.mk (s.data.map Char.toLower)

/-- Python `s.endswith(suf)`: suffix test on the character list. -/
def pyEndsWith (s suf : String) : Bool := List.isSuffixOf suf.data s.data

/-- Fields of a character list split at every whitespace character,
keeping empty fields. -/
def pySplitWsL : List Char → List (List Char)
  | [] => [[]]
  | c :: rest =>
    if c.isWhitespace then [] :: pySplitWsL rest
    else
      match pySplitWsL rest with
      | [] => [[c]]
      | f :: fs => (c :: f) :: fs

/-- Python `s.split()` with no argument, as used by the SPEC's wording
"split on whitespace": split on runs of whitespace, discarding empty
fields.  (The source itself uses single-space split, see pySplitSp;
this definition exists only to compare the spec's wording with the code.) -/
def specWhitespaceSplit (s : String) : List String :=
  (((pySplitWsL s.data).filter (fun t => t ≠ [])).map String.mk)

/-- Python `s.replace(pat, rep)` on character lists: every non-overlapping
occurrence of pat is replaced left to right (tools/pdf2txt.py lines 156 and
158 call str.replace).  The Nat is recursion fuel; every step consumes at
least one input character, so fuel at least the input length never runs
out. -/
def pyReplaceAux (pat rep : List Char) : Nat → List Char → List Char
  | _, [] => []
  | 0, s => s
  | fuel + 1, c :: rest =>
    if pat ≠ [] ∧ List.isPrefixOf pat (c :: rest) then
      rep ++ pyReplaceAux pat rep fuel (rest.drop (pat.length - 1))
    else
      c :: pyReplaceAux pat rep fuel rest

/-- Python `s.replace(pat, rep)` on Lean Strings. -/
def pyReplace (s pat rep : String) : String :=
  String.mk (pyReplaceAux pat.data rep.data s.data.length s.data)

/-- Decides whether pat occurs as a contiguous substring of s
(used to state the "path contains no '.pdf'" case of claim C9). -/
def occursIn (pat : List Char) : List Char → Bool
  | [] => pat.isEmpty
  | c :: rest => List.isPrefixOf pat (c :: rest) || occursIn pat rest

/-- Errors a run of the tool can raise; payloads are irrelevant to the
claims, so each Python exception class is one constructor.  osErr stands
for any error raised by an external collaborator at its call site. -/
inductive PyErr where
  | nameError
  | typeError
  | osErr
  deriving DecidableEq

/-- The resolved output sink of create_file: standard output, or a file
opened for writing at a path with an encoding. -/
inductive Sink where
  | stdout
  | fileAt (path : String) (encoding : String)
  deriving DecidableEq

/-- The renderer variant create_file constructs (lines 78-90). -/
inductive Renderer where
  | textConverter
  | xmlConverter
  | htmlConverter
  | tagExtractor
  deriving DecidableEq

/-- Lines 63-71 of create_file: if outtype is falsy it becomes 'text',
then is refined from the outfile extension ('.htm'/'.html' to 'html',
'.xml' to 'xml', '.tag' to 'tag'); a truthy outtype is kept verbatim. -/
def resolve_outtype (outtype outfile : Option String) : String :=
  if pyTruthyS outtype then outtype.getD ""
  else if pyTruthyS outfile then
    let f := outfile.getD ""
    if pyEndsWith f ".htm" || pyEndsWith f ".html" then "html"
    else if pyEndsWith f ".xml" then "xml"
    else if pyEndsWith f ".tag" then "tag"
    else "text"
  else "text"

/-- Lines 78-90: the device constructed for each outtype; none models the
Python local variable `device` staying unbound. -/
def selectDevice (ot : String) : Option Renderer :=
  if ot = "text" then some .textConverter
  else if ot = "xml" then some .xmlConverter
  else if ot = "html" then some .htmlConverter
  else if ot = "tag" then some .tagExtractor
  else none

/-- Observable file-handle state left behind by one call to create_file:
which sink was opened (none if the open itself raised or never ran),
whether device.close() ran (line 101), and whether outfp.close() ran
(lines 103-104). -/
structure CFTrace where
  sink : Option Sink
  rendererClosed : Bool
  sinkClosed : Bool
  deriving DecidableEq

/-- Lines 62-106 of tools/pdf2txt.py.  Parameters sinkErr and docErr stand
for the external world: sinkErr is the error raised by `open(outfile, 'w')`
if that open fails (only possible when a truthy outfile is given), docErr
is the first error raised while opening or interpreting the input documents
(none when every page processes fine).  The result pairs the handle trace
with the Python return value: `Except.ok none` models `return None`
(falling off the end of the function). -/
def create_file (input_files : List String) (outtype outfile : Option String)
    (encoding : String) (sinkErr docErr : Option PyErr) :
    CFTrace × Except PyErr (Option Bool) :=
  let ot := resolve_outtype outtype outfile
  if ot ≠ "" then
    -- lines 72-76: open the sink
    match (if pyTruthyS outfile then sinkErr else none) with
    | some e => (⟨none, false, false⟩, .error e)
    | none =>
      let sink : Sink :=
        if pyTruthyS outfile then .fileAt (outfile.getD "") encoding else .stdout
      let device := selectDevice ot
      -- lines 92-100: the document loop; device is first used inside it,
      -- after the first input file opens (or at device.close() when the
      -- loop body never runs)
      match input_files with
      | [] =>
        match device with
        | none => (⟨some sink, false, false⟩, .error .nameError)
        | some _ => (⟨some sink, true, pyTruthyS outfile⟩, .ok (some true))
      | _ :: _ =>
        match docErr with
        | some e => (⟨some sink, false, false⟩, .error e)
        | none =>
          match device with
          | none => (⟨some sink, false, false⟩, .error .nameError)
          | some _ => (⟨some sink, true, pyTruthyS outfile⟩, .ok (some true))
  else
    (⟨none, false, false⟩, .ok none)

/-! ## ChapterSegmenter: the scan loop of create_chapters (lines 161-185) -/

/-- Line 173-174: a line starts a new chapter file when splitting it on a
single space yields exactly 3 fields and the lowercased first field equals
the lowercased chapter keyword. -/
def isBoundary (chapter_definition line : String) : Bool :=
  let toks := pySplitSp line
  toks.length == 3 && pyLower (toks.getD 0 "") == pyLower chapter_definition

/-- Line 176: the new chapter file name is the first field, the second
field and the suffix '.txt' concatenated. -/
def chapterName (line : String) : String :=
  let toks := pySplitSp line
  (toks.getD 0 "") ++ (toks.getD 1 "") ++ ".txt"

/-- A file-handle event performed by the scan loop on the chapter
directory: opening a name for writing (truncating), writing a string to an
open name, closing a name. -/
inductive Ev where
  | openF (name : String)
  | write (name : String) (s : String)
  | closeF (name : String)
  deriving DecidableEq

/-- Lines 166-185, the while loop, as the trace of events it performs.
The input list holds the successive results of fp.readline() (each chunk
nonempty, a final '' signalling end of file is implicit); cur is the name
of the currently open chapter file.  On '' (end of file, or an impossible
empty chunk, line 181) the loop writes the empty read and closes; on a
boundary line it closes the current file, opens the derived name and
writes the boundary line into the new file; any other line is written to
the current file. -/
def scanEvents (chapter_definition : String) : List String → String → List Ev
  | [], cur => [.write cur "", .closeF cur]
  | l :: rest, cur =>
    if l = "" then [.write cur l, .closeF cur]
    else if isBoundary chapter_definition l then
      .closeF cur :: .openF (chapterName l) :: .write (chapterName l) l ::
        scanEvents chapter_definition rest (chapterName l)
    else
      .write cur l :: scanEvents chapter_definition rest cur

/-- Lines 163-185: the full handle trace of one segmentation scan,
starting with the open of preface.txt. -/
def chapterTrace (chapter_definition : String) (lines : List String) : List Ev :=
  .openF "preface.txt" :: scanEvents chapter_definition lines "preface.txt"

/-- The strings written by a trace, in order. -/
def writeStrings (t : List Ev) : List String :=
  t.filterMap fun e => match e with
    | .write _ s => some s
    | _ => none

/-- The names opened by a trace, in order. -/
def openNames (t : List Ev) : List String :=
  t.filterMap fun e => match e with
    | .openF n => some n
    | _ => none

/-- Handle discipline of a trace, given which file is currently open:
a file may be opened only when none is open, every write goes to the open
file, only the open file is closed, and at the end nothing is open.
This is the "at most one ChapterFile sink writable at any instant, closed
strictly before the next is opened" invariant. -/
def wfFrom : Option String → List Ev → Bool
  | none, [] => true
  | some _, [] => false
  | none, .openF n :: es => wfFrom (some n) es
  | none, .write _ _ :: _ => false
  | none, .closeF _ :: _ => false
  | some _, .openF _ :: _ => false
  | some n, .write m _ :: es => n == m && wfFrom (some n) es
  | some n, .closeF m :: es => n == m && wfFrom none es

/-- Number of openF events in a trace. -/
def countOpen (t : List Ev) : Nat := (openNames t).length

/-- Number of closeF events in a trace. -/
def countClose (t : List Ev) : Nat :=
  (t.filterMap fun e => match e with
    | .closeF n => some n
    | _ => none).length

/-- The chapter directory: file names with their current contents, in
creation order. -/
abbrev Dir := List (String × String)

/-- Opening a name for writing in a directory: truncate it in place if it
exists, otherwise create it at the end.  Assigning content c generalizes
open-then-write, so setEntry doubles as the final-content assignment. -/
def setEntry : Dir → String → String → Dir
  | [], n, c => [(n, c)]
  | (m, v) :: d, n, c => if m = n then (m, c) :: d else (m, v) :: setEntry d n c

/-- Appending to an open file's contents. -/
def appendEntry : Dir → String → String → Dir
  | [], n, s => [(n, s)]
  | (m, v) :: d, n, s => if m = n then (m, v ++ s) :: d else (m, v) :: appendEntry d n s

/-- Reading a file's contents from the directory. -/
def lookupEntry : Dir → String → Option String
  | [], _ => none
  | (m, v) :: d, n => if m = n then some v else lookupEntry d n

/-- The effect of one handle event on the directory ('w' mode truncates). -/
def applyEv (d : Dir) : Ev → Dir
  | .openF n => setEntry d n ""
  | .write n s => appendEntry d n s
  | .closeF _ => d

/-- The chapter directory produced by one scan of create_chapters over the
readline chunks, starting from directory d. -/
def runScanDir (d : Dir) (chapter_definition : String) (lines : List String) : Dir :=
  (chapterTrace chapter_definition lines).foldl applyEv d

/-- The per-open segments of the scan: for each file the scan opens, in
order, the name and the full content written while it was open.  This is a
derived view of the trace (proved equivalent below), convenient for
reasoning about the final directory. -/
def scanSegs (chapter_definition : String) : List String → String → String →
    List (String × String)
  | [], cur, acc => [(cur, acc)]
  | l :: rest, cur, acc =>
    if l = "" then [(cur, acc)]
    else if isBoundary chapter_definition l then
      (cur, acc) :: scanSegs chapter_definition rest (chapterName l) l
    else
      scanSegs chapter_definition rest cur (acc ++ l)

/-- All (name, content) segments of one scan. -/
def segments (chapter_definition : String) (lines : List String) : List (String × String) :=
  scanSegs chapter_definition lines "preface.txt" ""

/-- os.makedirs(path, exist_ok=True) (line 159): succeeds whether or not
the directory already exists. -/
def makedirsExistOk (_alreadyExists : Bool) : Except PyErr Unit := .ok ()

/-- Lines 153-158: the chapter directory path is derived from the last
element of input_files (the for loop rebinds fname, only the final binding
is used) by replacing every occurrence of '.pdf' with '_chapters'; none
models the NameError raised on an empty input list (fname unbound). -/
def chapterDirPath (input_files : List String) : Option String :=
  (input_files.getLast?).map fun f => pyReplace f ".pdf" "_chapters"

/-- Observable outcome of one successful create_chapters run. -/
structure ChapterResult where
  dirPath : String
  dir : Dir
  flatDeleted : Bool
  message : Option String
  retval : Bool
  deriving DecidableEq

/-- Lines 109-193 of tools/pdf2txt.py.  flatLines are the readline chunks
of the intermediate flat-text file that the inner create_file call wrote
to outfile (its content is engine output, outside this core); sinkErr and
docErr parametrize that inner call exactly as in create_file.  Failure
paths in order: the inner create_file raising; NameError at line 158 when
input_files is empty; TypeError at line 161 when outfile is None.  On
success the directory holds the scan's output (started from an empty,
newly made directory), the intermediate file is removed (line 188) and the
confirmation message is printed (lines 189-190). -/
def create_chapters (input_files : List String) (chapter_definition : String)
    (outtype outfile : Option String) (encoding : String)
    (sinkErr docErr : Option PyErr) (flatLines : List String) :
    Except PyErr ChapterResult :=
  match (create_file input_files outtype outfile encoding sinkErr docErr).2 with
  | .error e => .error e
  | .ok _ =>
    match chapterDirPath input_files with
    | none => .error .nameError
    | some dirPath =>
      match makedirsExistOk true with
      | .error e => .error e
      | .ok _ =>
        match outfile with
        | none => .error .typeError
        | some _ =>
          .ok { dirPath := dirPath
                dir := runScanDir [] chapter_definition flatLines
                flatDeleted := true
                message := some ("Files were created successfully in " ++ dirPath)
                retval := true }

/-- Lines 288-312 of main: with a chapterize keyword the outfile defaults
to 'chapters' when the -o argument is absent or falsy, and create_chapters
runs; otherwise create_file runs.  The result is the Python return value
of main (True on every normal completion). -/
def mainRun (inputs : List String) (chapterize : Option String)
    (outtype outfileArg : Option String) (encoding : String)
    (flatLines : List String) (sinkErr docErr : Option PyErr) :
    Except PyErr (Option Bool) :=
  match chapterize with
  | some kw =>
    let outfile := if pyTruthyS outfileArg then outfileArg else some "chapters"
    (create_chapters inputs kw outtype outfile encoding sinkErr docErr flatLines).map
      fun r => some r.retval
  | none =>
    (create_file inputs outtype outfileArg encoding sinkErr docErr).2

/-- Line 316, sys.exit(main()): CPython exits with status 0 for None,
with the integer itself for an int argument (bool is an int subclass, so
True exits with status 1), and with status 1 on an uncaught exception. -/
def sysExitStatus : Except PyErr (Option Bool) → Nat
  | .ok none => 0
  | .ok (some b) => if b then 1 else 0
  | .error _ => 1

/-! ## Helper lemmas -/

theorem pyEndsWith_suffix {s suf : String} (h : pyEndsWith s suf = true) :
    suf.data <:+ s.data := by
  simpa [pyEndsWith] using h

theorem suffix_conflict {s a b : String} (ha : pyEndsWith s a = true)
    (hb : pyEndsWith s b = true) (h : a.data.length ≤ b.data.length) :
    a.data <:+ b.data :=
  List.suffix_of_suffix_length_le (pyEndsWith_suffix ha) (pyEndsWith_suffix hb) h

/-! ## Claims about OutputSinkResolver -/

/-- C3: a requested output format is used verbatim by create_file; with no
requested format the format is inferred from the output path extension
('.htm' and '.html' give html, '.xml' gives xml, '.tag' gives tag), and
any other extension or an absent output path gives text. -/
theorem claimC3_format_inference (t o : Option String) (f : String) :
    (pyTruthyS t = true → resolve_outtype t o = t.getD "") ∧
    (pyEndsWith f ".htm" = true ∨ pyEndsWith f ".html" = true →
      resolve_outtype none (some f) = "html") ∧
    (pyEndsWith f ".xml" = true → resolve_outtype none (some f) = "xml") ∧
    (pyEndsWith f ".tag" = true → resolve_outtype none (some f) = "tag") ∧
    (pyEndsWith f ".htm" = false → pyEndsWith f ".html" = false →
      pyEndsWith f ".xml" = false → pyEndsWith f ".tag" = false →
      resolve_outtype none (some f) = "text") ∧
    resolve_outtype none none = "text" := by
  have hne : ∀ suf : String, suf.data ≠ [] → pyEndsWith f suf = true → f ≠ "" := by
    intro suf hsuf h hf
    have hsfx := pyEndsWith_suffix h
    rw [hf] at hsfx
    exact hsuf (List.suffix_nil.mp hsfx)
  refine ⟨?_, ?_, ?_, ?_, ?_, by decide⟩
  · intro ht; simp [resolve_outtype, ht]
  · rintro (h | h)
    · have hf : f ≠ "" := hne ".htm" (by decide) h
      simp [resolve_outtype, pyTruthyS, hf, h]
    · have hf : f ≠ "" := hne ".html" (by decide) h
      simp [resolve_outtype, pyTruthyS, hf, h]
  · intro h
    have hf : f ≠ "" := hne ".xml" (by decide) h
    have h1 : pyEndsWith f ".htm" = false := by
      by_contra hc
      have hc' : pyEndsWith f ".htm" = true := by simpa using hc
      exact absurd (suffix_conflict h hc' (by decide)) (by decide)
    have h2 : pyEndsWith f ".html" = false := by
      by_contra hc
      have hc' : pyEndsWith f ".html" = true := by simpa using hc
      exact absurd (suffix_conflict h hc' (by decide)) (by decide)
    simp [resolve_outtype, pyTruthyS, hf, h, h1, h2]
  · intro h
    have hf : f ≠ "" := hne ".tag" (by decide) h
    have h1 : pyEndsWith f ".htm" = false := by
      by_contra hc
      have hc' : pyEndsWith f ".htm" = true := by simpa using hc
      exact absurd (suffix_conflict h hc' (by decide)) (by decide)
    have h2 : pyEndsWith f ".html" = false := by
      by_contra hc
      have hc' : pyEndsWith f ".html" = true := by simpa using hc
      exact absurd (suffix_conflict h hc' (by decide)) (by decide)
    have h3 : pyEndsWith f ".xml" = false := by
      by_contra hc
      have hc' : pyEndsWith f ".xml" = true := by simpa using hc
      exact absurd (suffix_conflict h hc' (by decide)) (by decide)
    simp [resolve_outtype, pyTruthyS, hf, h, h1, h2, h3]
  · intro h1 h2 h3 h4
    by_cases hf : f = ""
    · simp [resolve_outtype, pyTruthyS, hf]
    · simp [resolve_outtype, pyTruthyS, hf, h1, h2, h3, h4]

/-- Witness for C3 at concrete inputs. -/
theorem claimC3_witness :
    resolve_outtype (some "xml") (some "out.txt") = "xml" ∧
    resolve_outtype none (some "book.html") = "html" ∧
    resolve_outtype none (some "book.tag") = "tag" ∧
    resolve_outtype none (some "book.txt") = "text" :=
  ⟨(claimC3_format_inference (some "xml") (some "out.txt") "").1 (by decide),
   (claimC3_format_inference none none "book.html").2.1 (Or.inr (by decide)),
   (claimC3_format_inference none none "book.tag").2.2.2.1 (by decide),
   (claimC3_format_inference none none "book.txt").2.2.2.2.1 (by decide) (by decide)
     (by decide) (by decide)⟩

theorem resolve_outtype_ne_empty (t o : Option String) : resolve_outtype t o ≠ "" := by
  by_cases ht : pyTruthyS t = true
  · obtain ⟨s, rfl⟩ : ∃ s, t = some s := by
      cases t with
      | none => simp [pyTruthyS] at ht
      | some s => exact ⟨s, rfl⟩
    have hs : s ≠ "" := by simpa [pyTruthyS] using ht
    simpa [resolve_outtype, ht] using hs
  · have ht' : pyTruthyS t = false := by simpa using ht
    simp only [resolve_outtype, ht', Bool.false_eq_true, if_false]
    split
    · split
      · decide
      · split
        · decide
        · split
          · decide
          · decide
    · decide

/-- C10: create_file never returns a failure value: a normal return is
always the value True, and a non-empty outtype outside
{text, xml, html, tag} makes the call raise an uncaught error (the local
renderer variable is never bound before its first use) rather than return
a failure indicator. -/
theorem claimC10_return_behavior (inputs : List String) (t o : Option String)
    (enc : String) (sErr dErr : Option PyErr) :
    (∀ v, (create_file inputs t o enc sErr dErr).2 = .ok v → v = some true) ∧
    (∀ s, t = some s → s ≠ "" → s ∉ (["text", "xml", "html", "tag"] : List String) →
      ∃ e, (create_file inputs t o enc sErr dErr).2 = .error e) := by
  have hot : resolve_outtype t o ≠ "" := resolve_outtype_ne_empty t o
  constructor
  · intro v h
    unfold create_file at h
    rw [if_pos hot] at h
    rcases hdev : selectDevice (resolve_outtype t o) with _ | dev <;> rw [hdev] at h <;>
      repeat' split at h
    all_goals simp_all
  · intro s hts hs hnotin
    subst hts
    have hres : resolve_outtype (some s) o = s := by
      simp [resolve_outtype, pyTruthyS, hs]
    have hdev : selectDevice s = none := by
      simp only [List.mem_cons, List.not_mem_nil, or_false, not_or] at hnotin
      simp [selectDevice, hnotin.1, hnotin.2.1, hnotin.2.2]
    simp only [create_file, hres, hdev]
    rw [if_pos hs]
    cases ho : pyTruthyS o <;> cases sErr <;> cases inputs <;> cases dErr <;>
      simp only [ho, Bool.false_eq_true, if_true, if_false] <;> exact ⟨_, rfl⟩

/-- Witness for C10: the invalid outtype 'bogus' makes create_file raise,
and a normal run returns True. -/
theorem claimC10_witness :
    (∃ e, (create_file ["a.pdf"] (some "bogus") none "utf-8" none none).2 = .error e) ∧
    some true = some true :=
  ⟨(claimC10_return_behavior ["a.pdf"] (some "bogus") none "utf-8" none none).2
    "bogus" rfl (by decide) (by decide),
   (claimC10_return_behavior [] (some "text") none "utf-8" none none).1
    (some true) rfl ▸ rfl⟩

/-- C4: the output sink of create_file is standard output when no output
path is given and otherwise a newly created writable file at the given
path with the configured encoding; on normal completion the renderer is
closed and the sink is closed exactly when it is a file (standard output
stays open). -/
theorem claimC4_sink_lifecycle (inputs : List String) (t o : Option String)
    (enc : String) (sErr dErr : Option PyErr) :
    (sErr = none →
      (create_file inputs t o enc sErr dErr).1.sink =
        some (if pyTruthyS o then Sink.fileAt (o.getD "") enc else Sink.stdout)) ∧
    (∀ v, (create_file inputs t o enc sErr dErr).2 = .ok v →
      (create_file inputs t o enc sErr dErr).1.rendererClosed = true ∧
      ((create_file inputs t o enc sErr dErr).1.sinkClosed = true ↔
        ∃ p e, (create_file inputs t o enc sErr dErr).1.sink =
          some (Sink.fileAt p e))) := by
  have hot : resolve_outtype t o ≠ "" := resolve_outtype_ne_empty t o
  constructor
  · intro hse
    subst hse
    cases ho : pyTruthyS o <;>
      rcases hdev : selectDevice (resolve_outtype t o) with _ | dev <;>
        cases inputs <;> cases dErr <;>
          simp [create_file, hot, ho, hdev]
  · intro v h
    unfold create_file at h ⊢
    rw [if_pos hot] at h ⊢
    cases ho : pyTruthyS o <;> cases sErr <;> cases inputs <;> cases dErr <;>
      rcases hdev : selectDevice (resolve_outtype t o) with _ | dev <;>
        simp only [ho, hdev, Bool.false_eq_true, if_true, if_false] at h ⊢ <;>
          simp_all

/-- Witness for C4 at a concrete normal run writing to a file. -/
theorem claimC4_witness :
    (create_file [] (some "text") (some "out.txt") "utf-8" none none).1.sink =
      some (Sink.fileAt "out.txt" "utf-8") ∧
    (create_file [] (some "text") (some "out.txt") "utf-8" none none).1.rendererClosed
      = true ∧
    (create_file [] (some "text") (some "out.txt") "utf-8" none none).1.sinkClosed
      = true :=
  ⟨(claimC4_sink_lifecycle [] (some "text") (some "out.txt") "utf-8" none none).1 rfl,
   ((claimC4_sink_lifecycle [] (some "text") (some "out.txt") "utf-8" none none).2
     (some true) rfl).1,
   (((claimC4_sink_lifecycle [] (some "text") (some "out.txt") "utf-8" none none).2
     (some true) rfl).2).mpr ⟨"out.txt", "utf-8", rfl⟩⟩

/-! ## Claims about the segmentation scan: concrete runs -/

/-- C1 counterexample: on the exact input claimed (lines without a
trailing space before the newline), the scan detects no boundary — each
chapter title line splits on a single space into two fields, not three —
so every line lands in preface.txt and Chapter1.txt is never created. -/
theorem claimC1_counterexample :
    runScanDir [] "chapter"
        ["intro text\n", "Chapter 1\n", "body A\n", "Chapter 2\n", "body B\n"] =
      [("preface.txt", "intro text\nChapter 1\nbody A\nChapter 2\nbody B\n")] ∧
    lookupEntry
        (runScanDir [] "chapter"
          ["intro text\n", "Chapter 1\n", "body A\n", "Chapter 2\n", "body B\n"])
        "Chapter1.txt" = none := by
  exact ⟨by decide, by decide⟩

/-- C1 amended: on the claimed input the scan produces exactly one file,
preface.txt, holding all five lines; the claimed three-file outcome is
produced exactly when the chapter title lines carry a trailing space
before the newline, in which case preface.txt holds only the intro line
and each ChapterN.txt holds its title line and body. -/
theorem claimC1_amended :
    runScanDir [] "chapter"
        ["intro text\n", "Chapter 1\n", "body A\n", "Chapter 2\n", "body B\n"] =
      [("preface.txt", "intro text\nChapter 1\nbody A\nChapter 2\nbody B\n")] ∧
    runScanDir [] "chapter"
        ["intro text\n", "Chapter 1 \n", "body A\n", "Chapter 2 \n", "body B\n"] =
      [("preface.txt", "intro text\n"),
       ("Chapter1.txt", "Chapter 1 \nbody A\n"),
       ("Chapter2.txt", "Chapter 2 \nbody B\n")] := by
  exact ⟨by decide, by decide⟩

/-- C2 counterexample: the line "chapter 3 \n" has only two
whitespace-separated tokens, and its first token matches the keyword, yet
it does trigger a new ChapterFile (the code splits on single spaces,
giving three fields, one of them "\n"), contradicting the claim that such
a line never triggers one. -/
theorem claimC2_counterexample :
    specWhitespaceSplit "chapter 3 \n" = ["chapter", "3"] ∧
    isBoundary "chapter" "chapter 3 \n" = true ∧
    openNames (chapterTrace "chapter" ["chapter 3 \n"]) =
      ["preface.txt", "chapter3.txt"] := by
  exact ⟨by decide, by decide, by decide⟩

/-- C5 counterexample: with two boundary markers that derive the same
file name, the second open truncates the first file, so the directory
ends with 2 files although (markers + 1) = 3. -/
theorem claimC5_counterexample :
    create_chapters ["b.pdf"] "chapter" (some "text") (some "chapters") "utf-8"
        none none ["Chapter 3 \n", "a\n", "Chapter 3 \n", "b\n"] =
      .ok { dirPath := "b_chapters",
            dir := [("preface.txt", ""), ("Chapter3.txt", "Chapter 3 \nb\n")],
            flatDeleted := true,
            message := some "Files were created successfully in b_chapters",
            retval := true } ∧
    (["Chapter 3 \n", "a\n", "Chapter 3 \n", "b\n"].filter
        (isBoundary "chapter")).length + 1 = 3 := by
  exact ⟨rfl, by decide⟩

/-- C7: a run of main that completes normally returns True, and
sys.exit(True) terminates the process with status 1 (True is the integer
1), not with the success status 0 the claim states. -/
theorem claimC7_success_run_exits_nonzero :
    mainRun ["samples/simple1.pdf"] none none none "utf-8" [] none none =
      .ok (some true) ∧
    sysExitStatus
      (mainRun ["samples/simple1.pdf"] none none none "utf-8" [] none none) ≠ 0 :=
  ⟨rfl, by decide⟩

/-! ## Trace lemmas for the scan loop -/

/-- The lines actually consumed by the while loop are the chunks before
the first empty read. -/
def neEmpty (x : String) : Bool := x ≠ ""

/-- Contribution of an already-open file to the open-handle count. -/
def openPending : Option String → Nat
  | none => 0
  | some _ => 1

theorem openNames_scanEvents (kw : String) (lines : List String) (cur : String) :
    openNames (scanEvents kw lines cur) =
      ((lines.takeWhile neEmpty).filter (isBoundary kw)).map chapterName := by
  induction lines generalizing cur with
  | nil => rfl
  | cons l rest ih =>
    by_cases hl : l = ""
    · subst hl
      have hne : neEmpty "" = false := by decide
      simp [scanEvents, openNames, List.takeWhile_cons, hne]
    · have hne : neEmpty l = true := by simp [neEmpty, hl]
      by_cases hb : isBoundary kw l = true
      · simp only [scanEvents, hl, hb, if_false, if_true, openNames, List.filterMap_cons,
          List.takeWhile_cons, hne, List.filter_cons, List.map_cons]
        exact congrArg _ (ih (chapterName l))
      · simp only [Bool.not_eq_true] at hb
        simp only [scanEvents, hl, hb, if_false, Bool.false_eq_true, openNames,
          List.filterMap_cons, List.takeWhile_cons, hne, List.filter_cons, if_true]
        exact ih cur

theorem writeStrings_scanEvents (kw : String) (lines : List String) (cur : String) :
    writeStrings (scanEvents kw lines cur) = lines.takeWhile neEmpty ++ [""] := by
  induction lines generalizing cur with
  | nil => rfl
  | cons l rest ih =>
    by_cases hl : l = ""
    · subst hl
      have hne : neEmpty "" = false := by decide
      simp [scanEvents, writeStrings, List.takeWhile_cons, hne]
    · have hne : neEmpty l = true := by simp [neEmpty, hl]
      by_cases hb : isBoundary kw l = true
      · simp only [scanEvents, hl, hb, if_false, if_true, writeStrings, List.filterMap_cons,
          List.takeWhile_cons, hne, List.cons_append]
        exact congrArg _ (ih (chapterName l))
      · simp only [Bool.not_eq_true] at hb
        simp only [scanEvents, hl, hb, if_false, Bool.false_eq_true, writeStrings,
          List.filterMap_cons, List.takeWhile_cons, hne, if_true, List.cons_append]
        exact congrArg _ (ih cur)

theorem wfFrom_scanEvents (kw : String) (lines : List String) (cur : String) :
    wfFrom (some cur) (scanEvents kw lines cur) = true := by
  induction lines generalizing cur with
  | nil => simp [scanEvents, wfFrom]
  | cons l rest ih =>
    by_cases hl : l = ""
    · subst hl
      simp [scanEvents, wfFrom]
    · by_cases hb : isBoundary kw l = true
      · simp [scanEvents, hl, hb, wfFrom, ih]
      · simp only [Bool.not_eq_true] at hb
        simp [scanEvents, hl, hb, wfFrom, ih]

theorem wfFrom_take_counts (t : List Ev) :
    ∀ a, wfFrom a t = true →
      ∀ n, countOpen (List.take n t) + openPending a ≤
        countClose (List.take n t) + 1 := by
  induction t with
  | nil =>
    intro a h n
    cases a <;> simp [countOpen, countClose, openNames, openPending]
  | cons e t ih =>
    intro a h n
    cases n with
    | zero => cases a <;> simp [countOpen, countClose, openNames, openPending]
    | succ n =>
      cases a with
      | none =>
        cases e with
        | openF m =>
          have h2 : wfFrom (some m) t = true := by simpa [wfFrom] using h
          have h3 := ih (some m) h2 n
          simp only [List.take_succ_cons, countOpen, countClose, openNames,
            List.filterMap_cons, List.length_cons, openPending] at h3 ⊢
          omega
        | write m s => simp [wfFrom] at h
        | closeF m => simp [wfFrom] at h
      | some a0 =>
        cases e with
        | openF m => simp [wfFrom] at h
        | write m s =>
          have h2 : a0 = m ∧ wfFrom (some a0) t = true := by simpa [wfFrom] using h
          have h3 := ih (some a0) h2.2 n
          simp only [List.take_succ_cons, countOpen, countClose, openNames,
            List.filterMap_cons, List.length_cons, openPending] at h3 ⊢
          omega
        | closeF m =>
          have h2 : a0 = m ∧ wfFrom none t = true := by simpa [wfFrom] using h
          have h3 := ih none h2.2 n
          simp only [List.take_succ_cons, countOpen, countClose, openNames,
            List.filterMap_cons, List.length_cons, openPending] at h3 ⊢
          omega

/-- C2 amended: during segmentation a line starts a new chapter file if
and only if splitting it on a single space character yields exactly three
fields with the lowercased first field equal to the lowercased keyword
(not "splitting on whitespace"); the new file is named by concatenating
the first and second fields with '.txt'.  The opened files are exactly
preface.txt followed by the derived names of the boundary lines, in
order. -/
theorem claimC2_amended (kw : String) (lines : List String) (l : String) :
    openNames (chapterTrace kw lines) =
      "preface.txt" ::
        ((lines.takeWhile neEmpty).filter (isBoundary kw)).map chapterName ∧
    isBoundary kw l =
      ((pySplitSp l).length == 3 &&
        pyLower ((pySplitSp l).getD 0 "") == pyLower kw) ∧
    chapterName l = (pySplitSp l).getD 0 "" ++ (pySplitSp l).getD 1 "" ++ ".txt" := by
  refine ⟨?_, rfl, rfl⟩
  have h : openNames (chapterTrace kw lines) =
      "preface.txt" :: openNames (scanEvents kw lines "preface.txt") := rfl
  rw [h, openNames_scanEvents]

/-- C6: during every segmentation scan the lines are written in exactly
the order they were read (followed only by the empty end-of-file read),
the handle discipline holds — a chapter file is opened only after the
previous one is closed, every write goes to the open file, and the scan
ends with the file closed — and hence at any instant at most one chapter
file has been opened but not closed. -/
theorem claimC6_ordering_and_single_open (kw : String) (lines : List String)
    (h : "" ∉ lines) :
    writeStrings (chapterTrace kw lines) = lines ++ [""] ∧
    wfFrom none (chapterTrace kw lines) = true ∧
    ∀ n, countOpen (List.take n (chapterTrace kw lines)) ≤
      countClose (List.take n (chapterTrace kw lines)) + 1 := by
  have htw : lines.takeWhile neEmpty = lines := by
    induction lines with
    | nil => rfl
    | cons l rest ih =>
      have hl : neEmpty l = true := by
        simp only [neEmpty, decide_eq_true_eq]
        intro hc
        exact h (hc ▸ List.mem_cons_self l rest)
      have hrest : "" ∉ rest := fun hc => h (List.mem_cons_of_mem l hc)
      simp [List.takeWhile_cons, hl, ih hrest]
  have hwf : wfFrom none (chapterTrace kw lines) = true := by
    have h0 : wfFrom none (chapterTrace kw lines) =
        wfFrom (some "preface.txt") (scanEvents kw lines "preface.txt") := rfl
    rw [h0, wfFrom_scanEvents]
  refine ⟨?_, hwf, ?_⟩
  · have hws : writeStrings (chapterTrace kw lines) =
        writeStrings (scanEvents kw lines "preface.txt") := rfl
    rw [hws, writeStrings_scanEvents, htw]
  · intro n
    have h4 := wfFrom_take_counts (chapterTrace kw lines) none hwf n
    simpa [openPending] using h4

/-- Witness for C6 at a concrete input. -/
theorem claimC6_witness :
    writeStrings (chapterTrace "chapter" ["a\n"]) = ["a\n"] ++ [""] ∧
    wfFrom none (chapterTrace "chapter" ["a\n"]) = true :=
  ⟨(claimC6_ordering_and_single_open "chapter" ["a\n"] (by decide)).1,
   (claimC6_ordering_and_single_open "chapter" ["a\n"] (by decide)).2.1⟩

/-! ## Directory-state lemmas -/

/-- The file names of a directory, in creation order. -/
def keys (d : Dir) : List String := d.map Prod.fst

/-- Assigning the final contents of a list of segments, in order. -/
def assignAll (d : Dir) (segs : List (String × String)) : Dir :=
  segs.foldl (fun acc p => setEntry acc p.1 p.2) d

/-- The content of the last segment carrying name m, if any. -/
def lastVal : List (String × String) → String → Option String
  | [], _ => none
  | (n, c) :: rest, m =>
    match lastVal rest m with
    | some c2 => some c2
    | none => if n = m then some c else none

theorem appendEntry_setEntry (d : Dir) (n c s : String) :
    appendEntry (setEntry d n c) n s = setEntry d n (c ++ s) := by
  induction d with
  | nil => simp [setEntry, appendEntry]
  | cons p d ih =>
    obtain ⟨m, v⟩ := p
    by_cases hmn : m = n
    · subst hmn
      simp [setEntry, appendEntry]
    · simp [setEntry, appendEntry, hmn, ih]

theorem foldl_applyEv_scanEvents (kw : String) (lines : List String) :
    ∀ (cur acc : String) (d : Dir),
      (scanEvents kw lines cur).foldl applyEv (setEntry d cur acc) =
        assignAll d (scanSegs kw lines cur acc) := by
  induction lines with
  | nil =>
    intro cur acc d
    simp [scanEvents, scanSegs, assignAll, applyEv, appendEntry_setEntry]
  | cons l rest ih =>
    intro cur acc d
    by_cases hl : l = ""
    · subst hl
      simp [scanEvents, scanSegs, assignAll, applyEv, appendEntry_setEntry]
    · by_cases hb : isBoundary kw l = true
      · simp only [scanEvents, scanSegs, hl, hb, if_true, if_false, List.foldl_cons,
          applyEv, assignAll]
        rw [appendEntry_setEntry]
        have he : ("" : String) ++ l = l := by simp
        rw [he]
        exact ih (chapterName l) l (setEntry d cur acc)
      · simp only [Bool.not_eq_true] at hb
        simp only [scanEvents, scanSegs, hl, hb, Bool.false_eq_true, if_false,
          List.foldl_cons, applyEv]
        rw [appendEntry_setEntry]
        exact ih cur (acc ++ l) d

theorem runScanDir_eq_assignAll (d : Dir) (kw : String) (lines : List String) :
    runScanDir d kw lines = assignAll d (segments kw lines) := by
  have h : runScanDir d kw lines =
      (scanEvents kw lines "preface.txt").foldl applyEv (setEntry d "preface.txt" "") := rfl
  rw [h, foldl_applyEv_scanEvents]
  rfl

theorem scanSegs_map_fst (kw : String) (lines : List String) :
    ∀ cur acc, (scanSegs kw lines cur acc).map Prod.fst =
      cur :: ((lines.takeWhile neEmpty).filter (isBoundary kw)).map chapterName := by
  induction lines with
  | nil => intro cur acc; rfl
  | cons l rest ih =>
    intro cur acc
    by_cases hl : l = ""
    · subst hl
      have hne : neEmpty "" = false := by decide
      simp [scanSegs, List.takeWhile_cons, hne]
    · have hne : neEmpty l = true := by simp [neEmpty, hl]
      by_cases hb : isBoundary kw l = true
      · simp only [scanSegs, hl, hb, if_true, if_false, List.map_cons,
          List.takeWhile_cons, hne, List.filter_cons]
        exact congrArg _ (ih (chapterName l) l)
      · simp only [Bool.not_eq_true] at hb
        simp only [scanSegs, hl, hb, Bool.false_eq_true, if_false, if_true,
          List.takeWhile_cons, hne, List.filter_cons]
        exact ih cur (acc ++ l)

theorem keys_setEntry (d : Dir) (n c : String) :
    keys (setEntry d n c) = if n ∈ keys d then keys d else keys d ++ [n] := by
  induction d with
  | nil => simp [setEntry, keys]
  | cons p d ih =>
    obtain ⟨m, v⟩ := p
    by_cases hmn : m = n
    · subst hmn
      simp [setEntry, keys, List.mem_cons]
    · have hnm : ¬(n = m) := fun hc => hmn hc.symm
      simp only [setEntry, hmn, if_false, keys, List.map_cons] at ih ⊢
      rw [ih]
      by_cases hm : n ∈ d.map Prod.fst
      · simp [List.mem_cons, hnm, hm]
      · simp [List.mem_cons, hnm, hm]

theorem mem_keys_setEntry (d : Dir) (n c m : String) :
    m ∈ keys (setEntry d n c) ↔ m = n ∨ m ∈ keys d := by
  rw [keys_setEntry]
  by_cases hm : n ∈ keys d
  · simp only [hm, if_true]
    constructor
    · exact Or.inr
    · rintro (rfl | h)
      · exact hm
      · exact h
  · simp [hm, List.mem_append, or_comm]

theorem nodup_keys_setEntry (d : Dir) (n c : String) (h : (keys d).Nodup) :
    (keys (setEntry d n c)).Nodup := by
  rw [keys_setEntry]
  by_cases hm : n ∈ keys d
  · simpa [hm] using h
  · simp [hm, List.nodup_append, h, List.disjoint_singleton]

theorem lookup_setEntry (d : Dir) (n c m : String) :
    lookupEntry (setEntry d n c) m = if n = m then some c else lookupEntry d m := by
  induction d with
  | nil => simp [setEntry, lookupEntry]
  | cons p d ih =>
    obtain ⟨m0, v⟩ := p
    by_cases hm0 : m0 = n
    · subst hm0
      simp only [setEntry, if_pos rfl, lookupEntry]
      by_cases h : m0 = m <;> simp [h]
    · simp only [setEntry, hm0, if_false, lookupEntry]
      by_cases hm0m : m0 = m
      · subst hm0m
        have hnm : ¬(n = m0) := fun hc => hm0 hc.symm
        simp [hnm, lookupEntry]
      · simp [hm0m, ih]

theorem lookup_eq_none_of_not_mem (d : Dir) (m : String) (h : m ∉ keys d) :
    lookupEntry d m = none := by
  induction d with
  | nil => rfl
  | cons p d ih =>
    obtain ⟨m0, v⟩ := p
    simp only [keys, List.map_cons, List.mem_cons, not_or] at h
    have hm0 : ¬(m0 = m) := fun hc => h.1 hc.symm
    simp only [lookupEntry, hm0, if_false]
    exact ih (by simpa [keys] using h.2)

theorem keys_assignAll_of_subset (segs : List (String × String)) :
    ∀ d : Dir, (∀ p ∈ segs, p.1 ∈ keys d) → keys (assignAll d segs) = keys d := by
  induction segs with
  | nil => intro d _; rfl
  | cons p segs ih =>
    intro d hsub
    obtain ⟨n, c⟩ := p
    have hn : n ∈ keys d := hsub (n, c) (List.mem_cons_self _ _)
    have hk : keys (setEntry d n c) = keys d := by simp [keys_setEntry, hn]
    have hstep : assignAll d ((n, c) :: segs) = assignAll (setEntry d n c) segs := rfl
    rw [hstep, ih (setEntry d n c) ?_, hk]
    intro q hq
    rw [hk]
    exact hsub q (List.mem_cons_of_mem _ hq)

theorem mem_keys_assignAll (segs : List (String × String)) :
    ∀ (d : Dir) (m : String),
      m ∈ keys (assignAll d segs) ↔ m ∈ keys d ∨ m ∈ segs.map Prod.fst := by
  induction segs with
  | nil => intro d m; simp [assignAll]
  | cons p segs ih =>
    intro d m
    obtain ⟨n, c⟩ := p
    have hstep : assignAll d ((n, c) :: segs) = assignAll (setEntry d n c) segs := rfl
    rw [hstep, ih, mem_keys_setEntry]
    simp [List.mem_cons]
    tauto

theorem nodup_keys_assignAll (segs : List (String × String)) :
    ∀ d : Dir, (keys d).Nodup → (keys (assignAll d segs)).Nodup := by
  induction segs with
  | nil => intro d h; exact h
  | cons p segs ih =>
    intro d h
    obtain ⟨n, c⟩ := p
    exact ih (setEntry d n c) (nodup_keys_setEntry d n c h)

theorem lookup_assignAll (segs : List (String × String)) :
    ∀ (d : Dir) (m : String),
      lookupEntry (assignAll d segs) m =
        match lastVal segs m with
        | some c => some c
        | none => lookupEntry d m := by
  induction segs with
  | nil => intro d m; rfl
  | cons p segs ih =>
    intro d m
    obtain ⟨n, c⟩ := p
    have hstep : assignAll d ((n, c) :: segs) = assignAll (setEntry d n c) segs := rfl
    rw [hstep, ih]
    cases hlv : lastVal segs m with
    | some c2 => simp [lastVal, hlv]
    | none =>
      simp only [lastVal, hlv, lookup_setEntry]
      by_cases hnm : n = m <;> simp [hnm]

theorem dir_ext : ∀ (X Y : Dir), keys X = keys Y → (keys X).Nodup →
    (∀ m, lookupEntry X m = lookupEntry Y m) → X = Y := by
  intro X
  induction X with
  | nil =>
    intro Y hk _ _
    cases Y with
    | nil => rfl
    | cons q Y => simp [keys] at hk
  | cons p X ih =>
    intro Y hk hnd hl
    obtain ⟨n, c⟩ := p
    cases Y with
    | nil => simp [keys] at hk
    | cons q Y =>
      obtain ⟨n2, c2⟩ := q
      simp only [keys, List.map_cons, List.cons.injEq] at hk
      obtain ⟨hn, hkeys⟩ := hk
      subst hn
      simp only [keys, List.map_cons, List.nodup_cons] at hnd
      have hc : c = c2 := by
        have h0 := hl n
        simpa [lookupEntry] using h0
      subst hc
      have htail : ∀ m, lookupEntry X m = lookupEntry Y m := by
        intro m
        by_cases hmn : m = n
        · subst hmn
          rw [lookup_eq_none_of_not_mem X m (by simpa [keys] using hnd.1),
            lookup_eq_none_of_not_mem Y m
              (by show m ∉ List.map Prod.fst Y; rw [← hkeys]; exact hnd.1)]
        · have h0 := hl m
          have hnm : ¬(n = m) := fun hc2 => hmn hc2.symm
          simpa [lookupEntry, hnm] using h0
      rw [ih Y (by simpa [keys] using hkeys) hnd.2 htail]

theorem assignAll_idem (segs : List (String × String)) (d : Dir)
    (hnd : (keys d).Nodup) :
    assignAll (assignAll d segs) segs = assignAll d segs := by
  have hsub : ∀ p ∈ segs, p.1 ∈ keys (assignAll d segs) := by
    intro p hp
    exact (mem_keys_assignAll segs d p.1).mpr
      (Or.inr (List.mem_map_of_mem Prod.fst hp))
  have hkeq : keys (assignAll (assignAll d segs) segs) = keys (assignAll d segs) :=
    keys_assignAll_of_subset segs (assignAll d segs) hsub
  apply dir_ext _ _ hkeq
  · rw [hkeq]
    exact nodup_keys_assignAll segs d hnd
  · intro m
    rw [lookup_assignAll, lookup_assignAll]
    cases hlv : lastVal segs m with
    | some c => rfl
    | none => rfl

/-! ## Claims about create_chapters as a whole -/

theorem create_chapters_ok_inv (inputs : List String) (kw : String)
    (t : Option String) (o : String) (enc : String) (sErr dErr : Option PyErr)
    (flat : List String) (r : ChapterResult)
    (h : create_chapters inputs kw t (some o) enc sErr dErr flat = .ok r) :
    chapterDirPath inputs = some r.dirPath ∧
    r.dir = runScanDir [] kw flat ∧
    r.flatDeleted = true ∧
    r.message = some ("Files were created successfully in " ++ r.dirPath) ∧
    r.retval = true := by
  unfold create_chapters at h
  split at h
  · exact absurd h (by simp)
  · split at h
    · exact absurd h (by simp)
    · next dirPath heq =>
      simp only [makedirsExistOk] at h
      have hr := Except.ok.inj h
      rw [← hr]
      exact ⟨heq, rfl, rfl, rfl, rfl⟩

/-- C5 amended: on every successful create_chapters run the intermediate
flat-text file is deleted, the confirmation message naming the output
directory is printed, True is returned, and the chapter directory contains
exactly one file per DISTINCT name among preface.txt and the derived names
of the detected boundary markers — a repeated derived name reuses
(truncates) its file, so the file count is the number of distinct derived
names plus one, not always (number of markers) + 1. -/
theorem claimC5_amended (inputs : List String) (kw : String) (t : Option String)
    (o : String) (enc : String) (sErr dErr : Option PyErr) (flat : List String)
    (r : ChapterResult)
    (h : create_chapters inputs kw t (some o) enc sErr dErr flat = .ok r) :
    r.flatDeleted = true ∧
    r.message = some ("Files were created successfully in " ++ r.dirPath) ∧
    r.retval = true ∧
    (keys r.dir).Nodup ∧
    ∀ m, m ∈ keys r.dir ↔
      m = "preface.txt" ∨
        m ∈ ((flat.takeWhile neEmpty).filter (isBoundary kw)).map chapterName := by
  obtain ⟨_, hdir, hdel, hmsg, hret⟩ :=
    create_chapters_ok_inv inputs kw t o enc sErr dErr flat r h
  refine ⟨hdel, hmsg, hret, ?_, ?_⟩
  · rw [hdir, runScanDir_eq_assignAll]
    exact nodup_keys_assignAll _ [] (by simp [keys])
  · intro m
    rw [hdir, runScanDir_eq_assignAll, mem_keys_assignAll]
    have hsegs : (segments kw flat).map Prod.fst =
        "preface.txt" ::
          ((flat.takeWhile neEmpty).filter (isBoundary kw)).map chapterName :=
      scanSegs_map_fst kw flat "preface.txt" ""
    rw [hsegs]
    simp [keys, List.mem_cons]

/-- The outcome of the concrete run used as a witness below. -/
def sampleChapterRun : ChapterResult :=
  { dirPath := "b_chapters"
    dir := [("preface.txt", "x\n")]
    flatDeleted := true
    message := some "Files were created successfully in b_chapters"
    retval := true }

/-- Witness for C5 at a concrete successful run. -/
theorem claimC5_witness :
    sampleChapterRun.flatDeleted = true ∧ (keys sampleChapterRun.dir).Nodup :=
  ⟨(claimC5_amended ["b.pdf"] "chapter" (some "text") "chapters" "utf-8" none none
      ["x\n"] sampleChapterRun rfl).1,
   (claimC5_amended ["b.pdf"] "chapter" (some "text") "chapters" "utf-8" none none
      ["x\n"] sampleChapterRun rfl).2.2.2.1⟩

/-- C8: re-running the segmentation scan over the directory produced by a
first run of the same document leaves the directory exactly as the first
run left it — every generated file is truncated and rewritten with the
same content and no stale data survives — and os.makedirs with
exist_ok=True succeeds although the directory already exists. -/
theorem claimC8_rerun_safe (kw : String) (lines : List String) :
    runScanDir (runScanDir [] kw lines) kw lines = runScanDir [] kw lines ∧
    makedirsExistOk true = Except.ok () := by
  constructor
  · rw [runScanDir_eq_assignAll [] kw lines, runScanDir_eq_assignAll]
    exact assignAll_idem (segments kw lines) [] (by simp [keys])
  · rfl

/-! ## Claim about the chapter directory path -/

theorem noOccur_replaceAux_id (pat rep : List Char) :
    ∀ (fuel : Nat) (s : List Char), occursIn pat s = false →
      pyReplaceAux pat rep fuel s = s := by
  intro fuel
  induction fuel with
  | zero => intro s h; cases s <;> rfl
  | succ fuel ih =>
    intro s h
    cases s with
    | nil => rfl
    | cons c rest =>
      have h2 : List.isPrefixOf pat (c :: rest) = false ∧ occursIn pat rest = false := by
        simpa [occursIn] using h
      simp only [pyReplaceAux]
      rw [if_neg]
      · exact congrArg _ (ih rest h2.2)
      · rintro ⟨_, hp⟩
        rw [h2.1] at hp
        exact Bool.false_ne_true hp

theorem pyReplace_id_of_not_occurs (y : String)
    (h : occursIn (".pdf".data) y.data = false) :
    pyReplace y ".pdf" "_chapters" = y := by
  unfold pyReplace
  rw [noOccur_replaceAux_id _ _ _ _ h]

/-- C9: on every create_chapters run, exactly one chapter directory path is
derived, from the LAST element of the input list alone, by replacing every
occurrence of '.pdf' in the full path with '_chapters'; earlier input paths
never influence it, and an input path containing no '.pdf' is used as the
directory path unchanged. -/
theorem claimC9_dir_from_last (xs : List String) (y : String) (kw : String)
    (t : Option String) (o : String) (enc : String) (sErr dErr : Option PyErr)
    (flat : List String) (r : ChapterResult)
    (h : create_chapters (xs ++ [y]) kw t (some o) enc sErr dErr flat = .ok r) :
    r.dirPath = pyReplace y ".pdf" "_chapters" ∧
    (occursIn (".pdf".data) y.data = false → r.dirPath = y) ∧
    chapterDirPath (xs ++ [y]) = some (pyReplace y ".pdf" "_chapters") := by
  have hlast : chapterDirPath (xs ++ [y]) = some (pyReplace y ".pdf" "_chapters") := by
    simp [chapterDirPath, List.getLast?_concat]
  obtain ⟨hp, _, _, _, _⟩ :=
    create_chapters_ok_inv (xs ++ [y]) kw t o enc sErr dErr flat r h
  rw [hlast] at hp
  have hr : r.dirPath = pyReplace y ".pdf" "_chapters" := (Option.some.inj hp).symm
  exact ⟨hr, fun hno => hr.trans (pyReplace_id_of_not_occurs y hno), hlast⟩

/-- The outcome of the concrete non-'.pdf' run used as a witness below. -/
def samplePlainRun : ChapterResult :=
  { dirPath := "book"
    dir := [("preface.txt", "x\n")]
    flatDeleted := true
    message := some "Files were created successfully in book"
    retval := true }

/-- Witness for C9: the input path 'book' contains no '.pdf' and becomes
the chapter directory path unchanged. -/
theorem claimC9_witness :
    samplePlainRun.dirPath = "book" ∧
    chapterDirPath ([] ++ ["book"]) = some (pyReplace "book" ".pdf" "_chapters") :=
  ⟨(claimC9_dir_from_last [] "book" "chapter" (some "text") "chapters" "utf-8"
      none none ["x\n"] samplePlainRun rfl).2.1 (by decide),
   (claimC9_dir_from_last [] "book" "chapter" (some "text") "chapters" "utf-8"
      none none ["x\n"] samplePlainRun rfl).2.2⟩

end Pdf2Txt

